import Mathlib

/-!
Verification of the Dockerfile reconstruction engine
(pkg/docker/dockerfile/reverse/reverse.go) of docker-slim.

The Go code is shallowly embedded: strings are Lean Strings, the Go string
helpers (strings.Split, strings.Replace, shlex.Split of github.com/google/shlex,
encoding/json string-array encoding with HTML escaping disabled, strconv.Atoi)
are re-implemented over List Char with structural or fuel-bounded recursion so
that every definition is executable and kernel-reducible.  Code paths that
panic in Go (out-of-range indexing, out-of-range slicing) are modelled by
Option, with none standing for a runtime panic.  External library calls whose
output the claims never inspect (RFC3339 time formatting, humanize.Bytes,
strconv.Quote) are abstracted as fields of a context record Ctx.
-/

namespace DSlim

/-! ## Go string primitives -/

/-- The whitespace classifier used by Go strings.TrimSpace (unicode.IsSpace)
restricted to the Latin-1 range; the repository feeds it ASCII input. -/
def goIsSpace (c : Char) : Bool :=
  c == ' ' || c == '\t' || c == '\n' || c == '\x0b' || c == '\x0c' || c == '\r' ||
  c == '\x85' || c == '\xa0'

/-- strings.TrimSpace: drop leading and trailing whitespace. -/
def sTrimSpace (s : String) : String :=
  ⟨((s.data.dropWhile goIsSpace).reverse.dropWhile goIsSpace).reverse⟩

/-- strings.HasPrefix. -/
def sStartsWith (s pre : String) : Bool :=
  pre.data.isPrefixOf s.data

/-- strings.HasSuffix. -/
def sEndsWith (s suf : String) : Bool :=
  suf.data.isSuffixOf s.data

/-- strings.TrimPrefix. -/
def sTrimPrefix (s pre : String) : String :=
  if sStartsWith s pre then ⟨s.data.drop pre.data.length⟩ else s

/-- strings.TrimSuffix. -/
def sTrimSuffix (s suf : String) : String :=
  if sEndsWith s suf then ⟨s.data.take (s.data.length - suf.data.length)⟩ else s

/-- Does sub occur as a contiguous sublist?  (strings.Contains; the repository
only uses non-empty search strings.) -/
def containsSub (sub : List Char) : List Char → Bool
  | [] => sub.isPrefixOf []
  | c :: rest => sub.isPrefixOf (c :: rest) || containsSub sub rest

/-- strings.Contains. -/
def containsStr (s sub : String) : Bool :=
  containsSub sub.data s.data

/-- Helper for strings.Split: scan with fuel; each step either consumes the
separator (non-empty in every use in the source) or one character. -/
def splitAux (sep : List Char) : Nat → List Char → List Char → List (List Char)
  | 0, cur, _ => [cur.reverse]
  | fuel+1, cur, s =>
    if sep.isPrefixOf s then cur.reverse :: splitAux sep fuel [] (s.drop sep.length)
    else match s with
      | [] => [cur.reverse]
      | c :: rest => splitAux sep fuel (c :: cur) rest

/-- strings.Split with a non-empty separator. -/
def sSplit (s sep : String) : List String :=
  (splitAux sep.data (s.data.length + 1) [] s.data).map (fun l => ⟨l⟩)

/-- Helper for strings.SplitN(s, sep, 2): split at the first occurrence. -/
def splitN2Aux (sep : List Char) : Nat → List Char → List Char → List (List Char)
  | 0, cur, _ => [cur.reverse]
  | fuel+1, cur, s =>
    if sep.isPrefixOf s then [cur.reverse, s.drop sep.length]
    else match s with
      | [] => [cur.reverse]
      | c :: rest => splitN2Aux sep fuel (c :: cur) rest

/-- strings.SplitN(s, sep, 2) with a non-empty separator. -/
def splitN2 (s sep : String) : List String :=
  (splitN2Aux sep.data (s.data.length + 1) [] s.data).map (fun l => ⟨l⟩)

/-- Helper for strings.Replace(s, old, new, -1): replace all non-overlapping
occurrences, scanning left to right. -/
def replaceAux (old new : List Char) : Nat → List Char → List Char
  | 0, s => s
  | fuel+1, s =>
    if old.isPrefixOf s then new ++ replaceAux old new fuel (s.drop old.length)
    else match s with
      | [] => []
      | c :: rest => c :: replaceAux old new fuel rest

/-- strings.Replace(s, old, new, -1) with non-empty old. -/
def sReplace (s old new : String) : String :=
  ⟨replaceAux old.data new.data (s.data.length + 1) s.data⟩

/-- strings.Join. -/
def sJoin (sep : String) : List String → String
  | [] => ""
  | [x] => x
  | x :: xs => x ++ sep ++ sJoin sep xs

/-- Sequential concatenation (a bytes.Buffer receiving successive writes). -/
def strConcat : List String → String
  | [] => ""
  | s :: rest => s ++ strConcat rest

/-- UTF-8 byte length of a string, as Go len(s). -/
def goByteLen (s : String) : Nat :=
  s.data.foldl (fun n c => n + c.utf8Size) 0

/-- Byte-level prefix s[0:n] of Go, approximated at character granularity:
take characters while their cumulative UTF-8 size fits in n (the source only
slices at len > 44 after producing ASCII output). -/
def byteTake : Nat → List Char → List Char
  | _, [] => []
  | n, c :: cs => if c.utf8Size ≤ n then c :: byteTake (n - c.utf8Size) cs else []

/-- strconv.Atoi: optional sign, one or more decimal digits, nothing else,
and the value must fit in a signed 64-bit int (ErrRange otherwise). -/
def atoiGo (s : String) : Option Int :=
  let cs := s.data
  let (sign, ds) : Int × List Char :=
    match cs with
    | '-' :: rest => (-1, rest)
    | '+' :: rest => (1, rest)
    | _ => (1, cs)
  if ds.isEmpty then none
  else if ds.all Char.isDigit then
    let n : Nat := ds.foldl (fun a c => a * 10 + (c.toNat - 48)) 0
    let v : Int := sign * (n : Int)
    if v < -(2 ^ 63) || v > 2 ^ 63 - 1 then none else some v
  else none

/-! ## github.com/google/shlex -/

/-- Lexer states of the shlex tokenizer. -/
inductive ShState where
  | start | inWord | escaping | escapingQuoted | quotingEscaping | quoting | comment
deriving DecidableEq

/-- One pass of the shlex state machine.  cur is the current token value in
reverse; acc the words produced so far.  none models the tokenizer errors
(EOF after escape character, EOF when expecting closing quote), which
shlex.Split surfaces as a Go error.  Comment tokens are dropped, as in
Lexer.Next. -/
def shlexRun : ShState → List Char → List Char → List String → Option (List String)
  | .start, [], _, acc => some acc
  | .inWord, [], cur, acc => some (acc ++ [⟨cur.reverse⟩])
  | .escaping, [], _, _ => none
  | .escapingQuoted, [], _, _ => none
  | .quotingEscaping, [], _, _ => none
  | .quoting, [], _, _ => none
  | .comment, [], _, acc => some acc
  | .start, c :: rest, _, acc =>
    if c == ' ' || c == '\t' || c == '\r' || c == '\n' then shlexRun .start rest [] acc
    else if c == '"' then shlexRun .quotingEscaping rest [] acc
    else if c == '\'' then shlexRun .quoting rest [] acc
    else if c == '\\' then shlexRun .escaping rest [] acc
    else if c == '#' then shlexRun .comment rest [] acc
    else shlexRun .inWord rest [c] acc
  | .inWord, c :: rest, cur, acc =>
    if c == ' ' || c == '\t' || c == '\r' || c == '\n' then
      shlexRun .start rest [] (acc ++ [⟨cur.reverse⟩])
    else if c == '"' then shlexRun .quotingEscaping rest cur acc
    else if c == '\'' then shlexRun .quoting rest cur acc
    else if c == '\\' then shlexRun .escaping rest cur acc
    else shlexRun .inWord rest (c :: cur) acc
  | .escaping, c :: rest, cur, acc => shlexRun .inWord rest (c :: cur) acc
  | .escapingQuoted, c :: rest, cur, acc => shlexRun .quotingEscaping rest (c :: cur) acc
  | .quotingEscaping, c :: rest, cur, acc =>
    if c == '"' then shlexRun .inWord rest cur acc
    else if c == '\\' then shlexRun .escapingQuoted rest cur acc
    else shlexRun .quotingEscaping rest (c :: cur) acc
  | .quoting, c :: rest, cur, acc =>
    if c == '\'' then shlexRun .inWord rest cur acc
    else shlexRun .quoting rest (c :: cur) acc
  | .comment, c :: rest, cur, acc =>
    if c == '\n' then shlexRun .start rest [] acc
    else shlexRun .comment rest cur acc

/-- shlex.Split: POSIX-style field splitting; none on lexer error. -/
def shlexSplit (s : String) : Option (List String) :=
  shlexRun .start s.data [] []

/-! ## encoding/json of a string slice with SetEscapeHTML(false) -/

/-- Lowercase hex digit. -/
def hexDigit (n : Nat) : Char :=
  if n < 10 then Char.ofNat (48 + n) else Char.ofNat (87 + n)

/-- Escape one character the way the Go encoder escapes string contents when
HTML escaping is disabled. -/
def jsonEscChar (c : Char) : List Char :=
  if c = '"' then ['\\', '"']
  else if c = '\\' then ['\\', '\\']
  else if c = '\n' then ['\\', 'n']
  else if c = '\r' then ['\\', 'r']
  else if c = '\t' then ['\\', 't']
  else if c.toNat < 0x20 then
    ['\\', 'u', '0', '0', hexDigit (c.toNat / 16), hexDigit (c.toNat % 16)]
  else if c.toNat = 0x2028 then ['\\', 'u', '2', '0', '2', '8']
  else if c.toNat = 0x2029 then ['\\', 'u', '2', '0', '2', '9']
  else [c]

/-- JSON string literal. -/
def jsonQuote (s : String) : String :=
  ⟨'"' :: (s.data.map jsonEscChar).flatten ++ ['"']⟩

/-- JSON encoding of a non-nil []string (shlex.Split always returns a non-nil
slice, so the null case of the Go encoder is unreachable here). -/
def jsonEncodeArr (xs : List String) : String :=
  "[" ++ sJoin "," (xs.map jsonQuote) ++ "]"

/-- json.Encoder.Encode output: the value followed by a newline. -/
def encodeGo (xs : List String) : String :=
  jsonEncodeArr xs ++ "\n"

/-! ## Data model (reverse.go) -/

/-- docker.ImageHistory entry: the fields of the go-dockerclient history
record that reverse.go reads. -/
structure HistoryEntry where
  ID : String
  Created : Int
  CreatedBy : String
  Tags : List String
  Size : Int
  Comment : String
deriving DecidableEq

/-- External library outputs that the source only copies into string fields:
time.Unix(created, 0).UTC().Format(time.RFC3339), humanize.Bytes, and
strconv.Quote.  The claims never inspect these strings, so they are abstracted
as parameters of the model. -/
structure Ctx where
  fmtTime : Int → String
  humanB : Nat → String
  quote : String → String

/-- Go uint64(sizeInt64) conversion feeding humanize.Bytes. -/
def toUint64 (i : Int) : Nat :=
  (i % 2 ^ 64).toNat

/-- InstructionInfo of reverse.go.  The Go field Type is called Kind here
(Type is reserved in Lean); LayerID, LayerFSDiffID and Author are omitted:
nothing in the source ever assigns them. -/
structure InstructionInfo where
  Kind : String
  Time : String
  IsLastInstruction : Bool
  IsNop : Bool
  IsExecForm : Bool
  LocalImageExists : Bool
  IntermediateImageID : String
  LayerIndex : Int
  Size : Int
  SizeHuman : String
  Params : String
  CommandSnippet : String
  CommandAll : String
  SystemCommands : List String
  Comment : String
  EmptyLayer : Bool
  instPosition : String
  imageFullName : String
  RawTags : List String
  Target : String
  SourceType : String
deriving DecidableEq

/-- ImageInfo (one image-stack frame) of reverse.go. -/
structure ImageInfo where
  IsTopImage : Bool
  ID : String
  FullName : String
  RepoName : String
  VersionTag : String
  RawTags : List String
  CreateTime : String
  NewSize : Int
  NewSizeHuman : String
  BaseImageID : String
  Instructions : List InstructionInfo
deriving DecidableEq

/-- Dockerfile, the output record of DockerfileFromHistory. -/
structure Dockerfile where
  Lines : List String
  Maintainers : List String
  AllUsers : List String
  ExeUser : String
  ExposedPorts : List String
  ImageStack : List ImageInfo
  AllInstructions : List InstructionInfo
  HasOnbuild : Bool
deriving DecidableEq

/-! ## Constants of reverse.go -/

def defaultRunInstShell : String := "/bin/sh"
def notRunInstPrefix : String := "/bin/sh -c #(nop) "
def runInstShellPrefix : String := "/bin/sh -c "
def runInstArgsPrefix : String := "|"
def instMaintainerPrefix : String := "MAINTAINER "

/-! ## fixJSONArray -/

/-- fixJSONArray of reverse.go.  none models the two Go panics: indexing
data[0] of an empty string, and slicing data[1:0] of the one-byte string
consisting of an opening bracket.  When the first character is an opening
bracket, Go takes data[1 : len(data)-1], i.e. drops the first and the last
character (it never checks that the last one is a closing bracket).  A shlex
error returns the input verbatim; encoding a non-nil []string never fails. -/
def fixJSONArrayGo (s : String) : Option String :=
  match s.data with
  | [] => none
  | c :: rest =>
    if c = '[' then
      match rest with
      | [] => none
      | _ :: _ =>
        match shlexSplit ⟨rest.dropLast⟩ with
        | none => some s
        | some toks => some (encodeGo toks)
    else
      match shlexSplit s with
      | none => some s
      | some toks => some (encodeGo toks)

/-! ## Instruction classifier (reverse.go lines 110-208) -/

/-- The classifier switch of DockerfileFromHistory: from the raw CreatedBy
line produce the pre-normalization instruction text and the exec-form flag.
none models the Go panic withArgsArray[argNum:] when the parsed build-arg
count is negative (slice bounds out of range). -/
def classifyLine (rawLine : String) : Option (String × Bool) :=
  if rawLine = "" then some ("", false)
  else if sStartsWith rawLine notRunInstPrefix then
    some (sTrimPrefix rawLine notRunInstPrefix, false)
  else if sStartsWith rawLine runInstShellPrefix then
    let runData := sTrimPrefix rawLine runInstShellPrefix
    if containsStr runData "&&" then
      let parts := sSplit runData "&&"
      let parts := parts.enum.map (fun p =>
        (if p.1 ≠ 0 then "\t" else "") ++ sTrimSpace p.2)
      some ("RUN " ++ sJoin " && \\\n" parts, false)
    else
      some ("RUN " ++ runData, false)
  else
    -- default: possibly a build-arg prefixed line, else RUN in exec form
    let fallback : String × Bool :=
      match shlexSplit rawLine with
      | some outArray => ("RUN " ++ encodeGo outArray, true)
      | none => ("RUN " ++ rawLine, true)
    if sStartsWith rawLine runInstArgsPrefix then
      match splitN2 rawLine " " with
      | [p0, p1] =>
        let withArgs := sTrimSpace p1
        let argNumStr : String := ⟨p0.data.drop 1⟩
        match atoiGo argNumStr with
        | some argNum =>
          match shlexSplit withArgs with
          | some withArgsArray =>
            if (withArgsArray.length : Int) > argNum then
              if argNum < 0 then none  -- Go panics: withArgsArray[argNum:]
              else
                let rawInstParts := withArgsArray.drop argNum.toNat
                match rawInstParts with
                | a :: b :: c :: restParts =>
                  if a = defaultRunInstShell ∧ b = "-c" then
                    some (sTrimSpace ("RUN " ++ sJoin " " (c :: restParts)), false)
                  else
                    some ("RUN " ++ encodeGo rawInstParts, true)
                | _ => some ("RUN " ++ encodeGo rawInstParts, true)
            else some fallback
          | none => some fallback
        | none => some fallback
      | _ => some fallback
    else some fallback

/-! ## ENTRYPOINT / CMD normalization (reverse.go lines 213-244) -/

def entrypointShellFormPrefix : String := "ENTRYPOINT [\"/bin/sh\" \"-c\" \""
def cmdShellFormPrefix : String := "CMD [\"/bin/sh\" \"-c\" \""

/-- The two sequential if-blocks over cleanInst: the ENTRYPOINT block first
rewrites the Go pseudo-array markers (ampersand-brace-bracket to bracket) in
the whole line, then either strips the /bin/sh -c wrapper (shell form) or runs
the operand through fixJSONArray and marks exec form; the CMD block does the
same but without the pseudo-array rewriting.  none propagates a fixJSONArray
panic. -/
def normEC (ci0 : String) (ef0 : Bool) : Option (String × Bool) :=
  let step1 : Option (String × Bool) :=
    if sStartsWith ci0 "ENTRYPOINT " then
      let c1 := sReplace (sReplace ci0 "&\x7b[" "[") "]\x7d" "]"
      if sStartsWith c1 entrypointShellFormPrefix then
        some ("ENTRYPOINT " ++ sTrimSuffix (sTrimPrefix c1 entrypointShellFormPrefix) "\"]", ef0)
      else
        match fixJSONArrayGo (sTrimPrefix c1 "ENTRYPOINT ") with
        | none => none
        | some d => some ("ENTRYPOINT " ++ d, true)
    else some (ci0, ef0)
  match step1 with
  | none => none
  | some (c2, ef2) =>
    if sStartsWith c2 "CMD " then
      if sStartsWith c2 cmdShellFormPrefix then
        some ("CMD " ++ sTrimSuffix (sTrimPrefix c2 cmdShellFormPrefix) "\"]", ef2)
      else
        match fixJSONArrayGo (sTrimPrefix c2 "CMD ") with
        | none => none
        | some d => some ("CMD " ++ d, true)
    else some (c2, ef2)

/-! ## Per-entry instruction record (reverse.go lines 280-368) -/

/-- Second element of a two-element list (instParts[1], used only under
guards that ensure the list has two elements). -/
def partSnd : List String → String
  | [_, p] => p
  | _ => ""

/-- Build the InstructionInfo for one history entry from the normalized
cleanInst.  Written as one record whose fields are computed by lets; the
sequential field assignments of the source commute, because each condition
reads fields that the previous assignments do not change. -/
def buildInst (ctx : Ctx) (e : HistoryEntry) (isNop ef : Bool) (ci : String) :
    InstructionInfo :=
  let instParts := splitN2 ci " "
  let ty0 := match instParts with
    | [t, _] => t
    | _ => ""
  let ty := if ci = "" then "NONE" else ty0
  let ca0 := if ci = "" then "#no instruction info" else ci
  let sys0 : List String :=
    if ty = "RUN" then
      let cmds := sReplace (partSnd instParts) "\\" ""
      let cmdParts := if containsStr cmds "&&" then sSplit cmds "&&" else sSplit cmds ";"
      cmdParts.map (fun c => sReplace (sReplace (sTrimSpace c) "\t" "") "\n" "")
    else []
  let params := if ty ≠ "RUN" ∧ instParts.length = 2 then partSnd instParts else ""
  let sys := if ty = "WORKDIR" then sys0 ++ ["mkdir -p " ++ partSnd instParts] else sys0
  -- ADD/COPY: Params of shape src:hash in dest; SourceType is assigned as soon
  -- as the colon split succeeds, Target and the CommandAll rewrite need the
  -- " in " split as well
  let addCopy : String × String × String :=
    if ty = "ADD" ∨ ty = "COPY" then
      match splitN2 params ":" with
      | [st, restP] =>
        match splitN2 restP " in " with
        | [hash, tgt] => (st, tgt, ty ++ " " ++ st ++ ":" ++ hash ++ " " ++ tgt)
        | _ => (st, "", ca0)
      | _ => ("", "", ca0)
    else ("", "", ca0)
  let ca := addCopy.2.2
  let snippet := if goByteLen ca > 44 then String.mk (byteTake 44 ca.data) ++ "..." else ca
  let localExists := e.ID ≠ "<missing>"
  { Kind := ty
    Time := ctx.fmtTime e.Created
    IsLastInstruction := false
    IsNop := isNop
    IsExecForm := ef
    LocalImageExists := decide localExists
    IntermediateImageID := if localExists then e.ID else ""
    LayerIndex := 0  -- never assigned anywhere in the source
    Size := e.Size
    SizeHuman := if e.Size > 0 then ctx.humanB (toUint64 e.Size) else ""
    Params := params
    CommandSnippet := snippet
    CommandAll := ca
    SystemCommands := sys
    Comment := e.Comment
    EmptyLayer := false  -- never assigned anywhere in the source
    instPosition := ""
    imageFullName := ""
    RawTags := e.Tags
    Target := addCopy.2.1
    SourceType := addCopy.1 }

/-- Process one history entry: classification, trimming, ENTRYPOINT/CMD
normalization, the MAINTAINER/USER/EXPOSE extractions, and the instruction
record.  none models a propagated Go panic. -/
def processEntry (ctx : Ctx) (e : HistoryEntry) :
    Option (InstructionInfo × Option String × Option String × Option String) :=
  let isNop := containsStr e.CreatedBy "#(nop)"
  match classifyLine e.CreatedBy with
  | none => none
  | some (inst, ef0) =>
    let ci0 := sTrimSpace inst
    match normEC ci0 ef0 with
    | none => none
    | some (ci, ef) =>
      let m := if sStartsWith ci instMaintainerPrefix then
          match splitN2 ci " " with
          | [_, p1] => some (sTrimSpace p1)
          | _ => none
        else none
      let u := if sStartsWith ci "USER " then
          match splitN2 ci " " with
          | [_, p1] => some (sTrimSpace p1)
          | _ => none
        else none
      let xp := if sStartsWith ci "EXPOSE " then
          match splitN2 ci " " with
          | [_, p1] => some (sTrimSpace p1)
          | _ => none
        else none
      some (buildInst ctx e isNop ef ci, m, u, xp)

/-! ## History reducer (reverse.go lines 106-426) -/

/-- The open frame under construction: its BaseImageID (the prevImageID at
allocation time), accumulated NewSize, and instructions so far. -/
structure CurFrame where
  baseID : String
  size : Int
  insts : List InstructionInfo
deriving DecidableEq

/-- The loop-carried output accumulators of DockerfileFromHistory. -/
structure RAcc where
  maintainers : List String
  allUsers : List String
  exeUser : String
  exposed : List String
  hasOnbuild : Bool
  stack : List ImageInfo
  fat : List InstructionInfo
deriving DecidableEq

def emptyAcc : RAcc :=
  { maintainers := [], allUsers := [], exeUser := "", exposed := [],
    hasOnbuild := false, stack := [], fat := [] }

/-- The per-entry frame bookkeeping applied to the freshly built instruction
(reverse.go lines 383-418): position label, and on a frame boundary the
is-last flag with the cleared intermediate id plus the frame full name. -/
def stepInst (i : InstructionInfo) (e : HistoryEntry) (isFirst close : Bool) :
    InstructionInfo :=
  let matched := close && (i.IntermediateImageID == e.ID)
  { i with
    instPosition := if close then "last" else if isFirst then "first" else "intermediate"
    IsLastInstruction := if matched then true else i.IsLastInstruction
    IntermediateImageID := if matched then "" else i.IntermediateImageID
    imageFullName :=
      if close then
        match e.Tags with
        | t :: _ => t
        | [] => i.imageFullName
      else i.imageFullName }

/-- Close the current frame at entry e (reverse.go lines 388-414). -/
def mkFrame (ctx : Ctx) (e : HistoryEntry) (cur : CurFrame) : ImageInfo :=
  let fullName := match e.Tags with
    | t :: _ => t
    | [] => ""
  let repoVer : String × String := match e.Tags with
    | t :: _ =>
      match sSplit t ":" with
      | a :: b :: _ => (a, b)
      | _ => ("", "")
    | [] => ("", "")
  { IsTopImage := false
    ID := e.ID
    FullName := fullName
    RepoName := repoVer.1
    VersionTag := repoVer.2
    RawTags := e.Tags
    CreateTime := ctx.fmtTime e.Created  -- instInfo.Time
    NewSize := cur.size
    NewSizeHuman := ctx.humanB (toUint64 cur.size)
    BaseImageID := cur.baseID
    Instructions := cur.insts }

/-- The body of one loop iteration: from the current (prevImageID, open
frame, accumulators) and the processed entry p = (instruction, maintainer,
user, expose), produce the next loop state.  p.2.1 is the MAINTAINER
operand, p.2.2.1 the USER operand, p.2.2.2 the EXPOSE operand. -/
def stepState (ctx : Ctx) (e : HistoryEntry) (rest : List HistoryEntry)
    (isFirst : Bool) (prevID : String) (cur : Option CurFrame) (acc : RAcc)
    (p : InstructionInfo × Option String × Option String × Option String) :
    String × Option CurFrame × RAcc :=
  let inst0 := p.1
  let acc1 := { acc with
    maintainers := acc.maintainers ++ p.2.1.toList
    allUsers := acc.allUsers ++ p.2.2.1.toList
    exeUser := p.2.2.1.getD acc.exeUser
    exposed := acc.exposed ++ p.2.2.2.toList
    hasOnbuild := acc.hasOnbuild || (inst0.Kind == "ONBUILD") }
  let cur1 := cur.getD { baseID := prevID, size := 0, insts := [] }
  let cur2 := { cur1 with size := cur1.size + e.Size }
  let close := rest.isEmpty || !e.Tags.isEmpty
  let inst := stepInst inst0 e isFirst close
  let cur3 := { cur2 with insts := cur2.insts ++ [inst] }
  let acc2 := { acc1 with fat := acc1.fat ++ [inst] }
  ((if close then e.ID else prevID),
   (if close then none else some cur3),
   (if close then { acc2 with stack := acc2.stack ++ [mkFrame ctx e cur3] } else acc2))

/-- The main loop, iterating the history oldest-first (the caller passes the
reversed history list).  isFirst is true only on the very first iteration
(idx == imageLayerStart); the frame closes when the entry is the newest one
(idx == 0, i.e. no entries remain) or carries tags. -/
def reduceAux (ctx : Ctx) :
    List HistoryEntry → Bool → String → Option CurFrame → RAcc → Option RAcc
  | [], _, _, _, acc => some acc
  | e :: rest, isFirst, prevID, cur, acc =>
    match processEntry ctx e with
    | none => none
    | some p =>
      let st := stepState ctx e rest isFirst prevID cur acc p
      reduceAux ctx rest false st.1 st.2.1 st.2.2

/-- After the loop the last allocated frame (the last one appended: the final
iteration always closes) is marked as the top image. -/
def markLastTop : List ImageInfo → List ImageInfo
  | [] => []
  | [f] => [{ f with IsTopImage := true }]
  | f :: rest => f :: markLastTop rest

/-! ## Dockerfile emitter (reverse.go lines 428-453) -/

/-- Emission of the per-instruction lines; the final-index test of the source
(idx < len-1) is the non-emptiness of the remaining list. -/
def emitLines : List InstructionInfo → List String
  | [] => []
  | inst :: rest =>
    (if inst.instPosition == "first" then ["# new image"] else []) ++
    [inst.CommandAll] ++
    (if inst.instPosition == "last" then
      ["# end of image: " ++ inst.imageFullName ++ " (id: " ++ inst.IntermediateImageID ++
        " tags: " ++ sJoin "," inst.RawTags ++ ")", ""] ++
      (if rest.isEmpty then [] else ["# new image"])
    else []) ++
    (if inst.Comment ≠ "" then ["# " ++ inst.Comment] else []) ++
    emitLines rest

/-- DockerfileFromHistory after a successful daemon history query.  The
history list is newest-first, as the daemon returns it; the loop walks it in
reverse.  none models a Go runtime panic inside the loop.  AllInstructions
and the emitter input coincide: the source appends the same record (through a
pointer and by value after all mutations) to out.AllInstructions and to
fatImageDockerInstructions on every iteration. -/
def dockerfileFromHistory (ctx : Ctx) (hist : List HistoryEntry) : Option Dockerfile :=
  match reduceAux ctx hist.reverse true "" none emptyAcc with
  | none => none
  | some acc =>
    some {
      Lines := "FROM scratch" :: emitLines acc.fat
      Maintainers := acc.maintainers
      AllUsers := acc.allUsers
      ExeUser := acc.exeUser
      ExposedPorts := acc.exposed
      ImageStack := markLastTop acc.stack
      AllInstructions := acc.fat
      HasOnbuild := acc.hasOnbuild }

/-! ## GenerateFromInfo, the metadata-mode emitter (reverse.go lines 482-592) -/

/-- One env entry: strings.Split on the equals sign, and when there are at
least two fields the line uses field 0 as the name and field 1 (only) as the
value; fields after a second equals sign are dropped by the source. -/
def envLineGo (e : String) : String :=
  match sSplit e "=" with
  | k :: v :: _ => "ENV " ++ k ++ " \"" ++ v ++ "\"\n"
  | _ => ""

/-- The env block: the per-entry lines, then one extra newline after the
group, emitted only when the env list is non-empty. -/
def envSection (env : List String) : String :=
  if env.isEmpty then "" else strConcat (env.map envLineGo) ++ "\n"

/-- The label block: each label line embeds the encoder output, which already
ends with a newline, and the Sprintf adds another; one extra newline closes
the group. -/
def labelSection (labels : List (String × String)) : String :=
  if labels.isEmpty then ""
  else strConcat (labels.map (fun p =>
    "LABEL " ++ p.1 ++ "=" ++ (jsonQuote p.2 ++ "\n") ++ "\n")) ++ "\n"

/-- The dfData buffer written by GenerateFromInfo.  Go map iterations
(labels, volumes, exposed ports) are passed as lists in iteration order;
labelName and ver stand for consts.ContainerLabelName and version.Current(). -/
def generateFromInfo (ctx : Ctx) (labelName ver : String) (volumes : List String)
    (workingDir : String) (env : List String) (labels : List (String × String))
    (user : String) (exposedPorts : List String) (entrypoint cmd : List String)
    (hasData tarData : Bool) : String :=
  "FROM scratch\n" ++
  ("LABEL " ++ labelName ++ "=\"" ++ ver ++ "\"\n") ++
  labelSection labels ++
  envSection env ++
  (if volumes.isEmpty then ""
   else "VOLUME [" ++ sJoin "," (volumes.map ctx.quote) ++ "]" ++ "\n") ++
  (if hasData then (if tarData then "ADD files.tar /\n" else "COPY files /\n") else "") ++
  (if workingDir = "" then "" else "WORKDIR " ++ workingDir ++ "\n") ++
  (if user = "" then "" else "USER " ++ user ++ "\n") ++
  strConcat (exposedPorts.map (fun p => "EXPOSE " ++ p ++ "\n")) ++
  (if entrypoint.isEmpty then ""
   else "ENTRYPOINT [" ++ sJoin "," (entrypoint.map ctx.quote) ++ "]" ++ "\n") ++
  (if cmd.isEmpty then ""
   else "CMD [" ++ sJoin "," (cmd.map ctx.quote) ++ "]" ++ "\n")

/-! ## Spec-side definitions for comparison -/

/-- The ENTRYPOINT/CMD normalizer as claim C2 states it: for both ENTRYPOINT
and CMD, first rewrite the pseudo-array markers, then strip the shell wrapper
or fall back to exec form through fixJSONArray. -/
def normECClaimC2 (ci0 : String) (ef0 : Bool) : Option (String × Bool) :=
  if sStartsWith ci0 "ENTRYPOINT " then
    let c1 := sReplace (sReplace ci0 "&\x7b[" "[") "]\x7d" "]"
    if sStartsWith c1 entrypointShellFormPrefix then
      some ("ENTRYPOINT " ++ sTrimSuffix (sTrimPrefix c1 entrypointShellFormPrefix) "\"]", ef0)
    else
      match fixJSONArrayGo (sTrimPrefix c1 "ENTRYPOINT ") with
      | none => none
      | some d => some ("ENTRYPOINT " ++ d, true)
  else if sStartsWith ci0 "CMD " then
    let c1 := sReplace (sReplace ci0 "&\x7b[" "[") "]\x7d" "]"
    if sStartsWith c1 cmdShellFormPrefix then
      some ("CMD " ++ sTrimSuffix (sTrimPrefix c1 cmdShellFormPrefix) "\"]", ef0)
    else
      match fixJSONArrayGo (sTrimPrefix c1 "CMD ") with
      | none => none
      | some d => some ("CMD " ++ d, true)
  else some (ci0, ef0)

/-- The ENTRYPOINT/CMD normalizer as the amended claim C2 states it:
dispatch on the leading keyword; only ENTRYPOINT operands get the
pseudo-array rewriting, CMD operands are used as found. -/
def normECSpecA (ci0 : String) (ef0 : Bool) : Option (String × Bool) :=
  if sStartsWith ci0 "ENTRYPOINT " then
    let c1 := sReplace (sReplace ci0 "&\x7b[" "[") "]\x7d" "]"
    if sStartsWith c1 entrypointShellFormPrefix then
      some ("ENTRYPOINT " ++ sTrimSuffix (sTrimPrefix c1 entrypointShellFormPrefix) "\"]", ef0)
    else
      match fixJSONArrayGo (sTrimPrefix c1 "ENTRYPOINT ") with
      | none => none
      | some d => some ("ENTRYPOINT " ++ d, true)
  else if sStartsWith ci0 "CMD " then
    if sStartsWith ci0 cmdShellFormPrefix then
      some ("CMD " ++ sTrimSuffix (sTrimPrefix ci0 cmdShellFormPrefix) "\"]", ef0)
    else
      match fixJSONArrayGo (sTrimPrefix ci0 "CMD ") with
      | none => none
      | some d => some ("CMD " ++ d, true)
  else some (ci0, ef0)

/-! ## Concrete inputs used by counterexamples, bug exhibits and witnesses -/

/-- A context whose external formatters are trivial; the properties checked
on concrete inputs never involve their output. -/
def ctx0 : Ctx := ⟨fun _ => "", fun _ => "", fun s => s⟩

/-- The single tagged CMD entry of claim C1 (spec boundary scenario 2). -/
def e1 : HistoryEntry :=
  ⟨"id1", 0, "/bin/sh -c #(nop) CMD [\"sh\"]", ["img:1"], 0, ""⟩

/-- A single entry whose layer is not materialized locally. -/
def eMissing : HistoryEntry :=
  ⟨"<missing>", 0, "/bin/sh -c #(nop) ENV A B", [], 0, ""⟩

/-- A history entry with a negative build-arg count. -/
def eNegArgs : HistoryEntry := ⟨"id4", 0, "|-1 x", [], 0, ""⟩

/-- Newest entry of the two-layer history used for claim C7. -/
def eTagged : HistoryEntry :=
  ⟨"id1", 0, "/bin/sh -c #(nop) BAR b", ["r:1"], 0, ""⟩

/-- Oldest entry of the two-layer history used for claim C7. -/
def eUntagged : HistoryEntry :=
  ⟨"id0", 0, "/bin/sh -c #(nop) FOO a", [], 0, ""⟩

/-- A HEALTHCHECK entry in the daemon serialization (spec section 9). -/
def eHealth : HistoryEntry :=
  ⟨"idH", 0,
   "/bin/sh -c #(nop)  HEALTHCHECK &\x7b[\"CMD\" \"/healthcheck\" \"8080\"] \"5s\" \"10s\" \"2s\" \x27\\x03\x27\x7d",
   [], 0, ""⟩

/-- A single entry with an empty CreatedBy line (claim C10 witness). -/
def eEmptyLine : HistoryEntry := ⟨"id9", 0, "", [], 0, ""⟩

/-- A fresh single-entry tagged history used by the frame-invariant witness. -/
def eW3 : HistoryEntry :=
  ⟨"idw", 0, "/bin/sh -c #(nop) WORKDIR /app", ["w:1"], 0, ""⟩

/-! # Helper lemmas -/

/-! ### Projection lemmas for the loop body -/

theorem stepInst_CommandAll (i : InstructionInfo) (e : HistoryEntry) (f c : Bool) :
    (stepInst i e f c).CommandAll = i.CommandAll := rfl

theorem stepInst_Kind (i : InstructionInfo) (e : HistoryEntry) (f c : Bool) :
    (stepInst i e f c).Kind = i.Kind := rfl

theorem stepInst_isLast_open (i : InstructionInfo) (e : HistoryEntry) (f : Bool) :
    (stepInst i e f false).IsLastInstruction = i.IsLastInstruction := by
  simp [stepInst]

theorem stepInst_flag_id (i : InstructionInfo) (e : HistoryEntry) (f c : Bool)
    (h : i.IsLastInstruction = false) :
    (stepInst i e f c).IsLastInstruction = true →
      (stepInst i e f c).IntermediateImageID = "" := by
  by_cases hm : (c && (i.IntermediateImageID == e.ID)) = true <;>
    simp [stepInst, hm, h]

theorem buildInst_isLast (ctx : Ctx) (e : HistoryEntry) (n ef : Bool) (ci : String) :
    (buildInst ctx e n ef ci).IsLastInstruction = false := rfl

theorem processEntry_isLast (ctx : Ctx) (e : HistoryEntry)
    (r : InstructionInfo × Option String × Option String × Option String)
    (h : processEntry ctx e = some r) : r.1.IsLastInstruction = false := by
  unfold processEntry at h
  cases hc : classifyLine e.CreatedBy with
  | none => rw [hc] at h; simp at h
  | some q =>
    obtain ⟨inst, ef0⟩ := q
    rw [hc] at h
    dsimp only [] at h
    cases hn : normEC (sTrimSpace inst) ef0 with
    | none => rw [hn] at h; simp at h
    | some q2 =>
      obtain ⟨ci, ef⟩ := q2
      rw [hn] at h
      dsimp only [] at h
      simp only [Option.some.injEq] at h
      subst h
      rfl

theorem stepState_fat (ctx : Ctx) (e : HistoryEntry) (rest : List HistoryEntry)
    (isF : Bool) (pid : String) (cur : Option CurFrame) (acc : RAcc)
    (p : InstructionInfo × Option String × Option String × Option String) :
    (stepState ctx e rest isF pid cur acc p).2.2.fat =
      acc.fat ++ [stepInst p.1 e isF (rest.isEmpty || !e.Tags.isEmpty)] := by
  by_cases hc : (rest.isEmpty || !e.Tags.isEmpty) = true <;>
    simp [stepState, hc]

theorem stepState_stack_open (ctx : Ctx) (e : HistoryEntry) (rest : List HistoryEntry)
    (isF : Bool) (pid : String) (cur : Option CurFrame) (acc : RAcc)
    (p : InstructionInfo × Option String × Option String × Option String)
    (hc : (rest.isEmpty || !e.Tags.isEmpty) = false) :
    (stepState ctx e rest isF pid cur acc p).2.2.stack = acc.stack := by
  simp [stepState, hc]

theorem stepState_stack_close (ctx : Ctx) (e : HistoryEntry) (rest : List HistoryEntry)
    (isF : Bool) (pid : String) (cur : Option CurFrame) (acc : RAcc)
    (p : InstructionInfo × Option String × Option String × Option String)
    (hc : (rest.isEmpty || !e.Tags.isEmpty) = true) :
    (stepState ctx e rest isF pid cur acc p).2.2.stack =
      acc.stack ++ [mkFrame ctx e
        { baseID := (cur.getD { baseID := pid, size := 0, insts := [] }).baseID
          size := (cur.getD { baseID := pid, size := 0, insts := [] }).size + e.Size
          insts := (cur.getD { baseID := pid, size := 0, insts := [] }).insts ++
            [stepInst p.1 e isF (rest.isEmpty || !e.Tags.isEmpty)] }] := by
  simp [stepState, hc]

theorem stepState_cur_open (ctx : Ctx) (e : HistoryEntry) (rest : List HistoryEntry)
    (isF : Bool) (pid : String) (cur : Option CurFrame) (acc : RAcc)
    (p : InstructionInfo × Option String × Option String × Option String)
    (hc : (rest.isEmpty || !e.Tags.isEmpty) = false) :
    (stepState ctx e rest isF pid cur acc p).2.1 =
      some { baseID := (cur.getD { baseID := pid, size := 0, insts := [] }).baseID
             size := (cur.getD { baseID := pid, size := 0, insts := [] }).size + e.Size
             insts := (cur.getD { baseID := pid, size := 0, insts := [] }).insts ++
               [stepInst p.1 e isF (rest.isEmpty || !e.Tags.isEmpty)] } := by
  simp [stepState, hc]

theorem stepState_cur_close (ctx : Ctx) (e : HistoryEntry) (rest : List HistoryEntry)
    (isF : Bool) (pid : String) (cur : Option CurFrame) (acc : RAcc)
    (p : InstructionInfo × Option String × Option String × Option String)
    (hc : (rest.isEmpty || !e.Tags.isEmpty) = true) :
    (stepState ctx e rest isF pid cur acc p).2.1 = none := by
  simp [stepState, hc]

/-! ### Induction lemmas over the reducer loop -/

theorem reduceAux_fat_mono (ctx : Ctx) :
    ∀ (es : List HistoryEntry) (isF : Bool) (pid : String) (cur : Option CurFrame)
      (acc st' : RAcc), reduceAux ctx es isF pid cur acc = some st' →
      ∃ t, st'.fat = acc.fat ++ t := by
  intro es
  induction es with
  | nil =>
    intro isF pid cur acc st' h
    simp only [reduceAux, Option.some.injEq] at h
    exact ⟨[], by rw [← h, List.append_nil]⟩
  | cons e rest ih =>
    intro isF pid cur acc st' h
    simp only [reduceAux] at h
    cases hp : processEntry ctx e with
    | none => rw [hp] at h; simp at h
    | some p =>
      rw [hp] at h
      obtain ⟨t, ht⟩ := ih _ _ _ _ _ h
      rw [stepState_fat] at ht
      exact ⟨_, by rw [ht, List.append_assoc]⟩

theorem reduceAux_view (ctx : Ctx) :
    ∀ (es : List HistoryEntry) (isF : Bool) (pid : String) (cur : Option CurFrame)
      (acc st' : RAcc), reduceAux ctx es isF pid cur acc = some st' →
      ∀ e ∈ es, ∃ r, processEntry ctx e = some r ∧
        ∃ inst ∈ st'.fat, inst.Kind = r.1.Kind ∧ inst.CommandAll = r.1.CommandAll := by
  intro es
  induction es with
  | nil => intro _ _ _ _ _ _ e he; exact absurd he (List.not_mem_nil e)
  | cons e0 rest ih =>
    intro isF pid cur acc st' h e he
    simp only [reduceAux] at h
    cases hp : processEntry ctx e0 with
    | none => rw [hp] at h; simp at h
    | some p =>
      rw [hp] at h
      rcases List.mem_cons.mp he with rfl | hmem
      · obtain ⟨t, ht⟩ := reduceAux_fat_mono ctx _ _ _ _ _ _ h
        rw [stepState_fat] at ht
        refine ⟨p, hp, stepInst p.1 e isF (rest.isEmpty || !e.Tags.isEmpty),
          ?_, stepInst_Kind p.1 e isF _, stepInst_CommandAll p.1 e isF _⟩
        rw [ht]
        simp [List.mem_append]
      · exact ih _ _ _ _ _ h e hmem

/-- Frame sanity invariant through the loop: at most the last instruction of
any accumulated frame carries the is-last flag, and a set flag comes with a
cleared intermediate image id. -/
theorem reduceAux_stack_ok (ctx : Ctx) :
    ∀ (es : List HistoryEntry) (isF : Bool) (pid : String) (cur : Option CurFrame)
      (acc st' : RAcc), reduceAux ctx es isF pid cur acc = some st' →
      (∀ f ∈ acc.stack,
        (∀ i ∈ f.Instructions.dropLast, i.IsLastInstruction = false) ∧
        (∀ i ∈ f.Instructions, i.IsLastInstruction = true → i.IntermediateImageID = "")) →
      (∀ c, cur = some c → ∀ i ∈ c.insts, i.IsLastInstruction = false) →
      ∀ f ∈ st'.stack,
        (∀ i ∈ f.Instructions.dropLast, i.IsLastInstruction = false) ∧
        (∀ i ∈ f.Instructions, i.IsLastInstruction = true → i.IntermediateImageID = "") := by
  intro es
  induction es with
  | nil =>
    intro isF pid cur acc st' h hstack hcur
    simp only [reduceAux, Option.some.injEq] at h
    exact h ▸ hstack
  | cons e rest ih =>
    intro isF pid cur acc st' h hstack hcur
    simp only [reduceAux] at h
    cases hp : processEntry ctx e with
    | none => rw [hp] at h; simp at h
    | some p =>
      rw [hp] at h
      have hinstlast : p.1.IsLastInstruction = false := processEntry_isLast ctx e p hp
      have hcurinsts : ∀ i ∈ (cur.getD { baseID := pid, size := 0, insts := [] }).insts,
          i.IsLastInstruction = false := by
        cases cur with
        | none => intro i hi; simp at hi
        | some c => exact hcur c rfl
      by_cases hc : (rest.isEmpty || !e.Tags.isEmpty) = true
      · -- the frame closes here
        refine ih _ _ _ _ _ h ?_ ?_
        · rw [stepState_stack_close ctx e rest isF pid cur acc p hc]
          intro f hf
          rcases List.mem_append.mp hf with hf | hf
          · exact hstack f hf
          · have hfr : f = mkFrame ctx e
                { baseID := (cur.getD { baseID := pid, size := 0, insts := [] }).baseID
                  size := (cur.getD { baseID := pid, size := 0, insts := [] }).size + e.Size
                  insts := (cur.getD { baseID := pid, size := 0, insts := [] }).insts ++
                    [stepInst p.1 e isF (rest.isEmpty || !e.Tags.isEmpty)] } := by
              simpa using hf
            subst hfr
            constructor
            · intro i hi
              have hi2 : i ∈ ((cur.getD { baseID := pid, size := 0, insts := [] }).insts ++
                  [stepInst p.1 e isF (rest.isEmpty || !e.Tags.isEmpty)]).dropLast := hi
              rw [List.dropLast_concat] at hi2
              exact hcurinsts i hi2
            · intro i hi hflag
              have hi2 : i ∈ (cur.getD { baseID := pid, size := 0, insts := [] }).insts ++
                  [stepInst p.1 e isF (rest.isEmpty || !e.Tags.isEmpty)] := hi
              rcases List.mem_append.mp hi2 with hi | hi
              · exact absurd hflag (by simp [hcurinsts i hi])
              · have : i = stepInst p.1 e isF (rest.isEmpty || !e.Tags.isEmpty) := by
                  simpa using hi
                subst this
                exact stepInst_flag_id p.1 e isF _ hinstlast hflag
        · rw [stepState_cur_close ctx e rest isF pid cur acc p hc]
          intro c hcc
          simp at hcc
      · -- the frame stays open
        rw [Bool.not_eq_true] at hc
        refine ih _ _ _ _ _ h ?_ ?_
        · rw [stepState_stack_open ctx e rest isF pid cur acc p hc]
          exact hstack
        · rw [stepState_cur_open ctx e rest isF pid cur acc p hc]
          intro c hcc i hi
          simp only [Option.some.injEq] at hcc
          subst hcc
          rcases List.mem_append.mp hi with hi | hi
          · exact hcurinsts i hi
          · have : i = stepInst p.1 e isF (rest.isEmpty || !e.Tags.isEmpty) := by
              simpa using hi
            subst this
            rw [hc, stepInst_isLast_open]
            exact hinstlast

/-- markLastTop only changes the IsTopImage field, so any property of the
instruction lists survives it. -/
theorem markLastTop_ok
    (P : ImageInfo → Prop)
    (hP : ∀ f g : ImageInfo, f.Instructions = g.Instructions → P f → P g) :
    ∀ l : List ImageInfo, (∀ f ∈ l, P f) → ∀ f ∈ markLastTop l, P f := by
  intro l
  induction l with
  | nil => intro _ f hf; simp [markLastTop] at hf
  | cons a rest ih =>
    intro hall f hf
    cases rest with
    | nil =>
      simp only [markLastTop, List.mem_singleton] at hf
      subst hf
      exact hP a _ rfl (hall a (by simp))
    | cons b bs =>
      rw [show markLastTop (a :: b :: bs) = a :: markLastTop (b :: bs) from rfl] at hf
      rcases List.mem_cons.mp hf with rfl | hf
      · exact hall f (by simp)
      · exact ih (fun g hg => hall g (List.mem_cons_of_mem a hg)) f hf

/-- Every instruction of the emitter input contributes its CommandAll as an
output line. -/
theorem mem_emitLines : ∀ (l : List InstructionInfo) (i : InstructionInfo), i ∈ l →
    i.CommandAll ∈ emitLines l := by
  intro l
  induction l with
  | nil => intro i hi; simp at hi
  | cons a rest ih =>
    intro i hi
    rcases List.mem_cons.mp hi with rfl | hi
    · simp only [emitLines, List.mem_append, List.mem_singleton]
      tauto
    · have := ih i hi
      simp only [emitLines, List.mem_append, List.mem_singleton]
      tauto

/-- Processing an entry with an empty CreatedBy line yields the NONE kind and
the placeholder command text. -/
theorem processEntry_emptyLine (ctx : Ctx) (e : HistoryEntry)
    (r : InstructionInfo × Option String × Option String × Option String)
    (h : processEntry ctx e = some r) (hcb : e.CreatedBy = "") :
    r.1.Kind = "NONE" ∧ r.1.CommandAll = "#no instruction info" := by
  unfold processEntry at h
  rw [hcb] at h
  rw [show classifyLine "" = some ("", false) from rfl] at h
  dsimp only [] at h
  rw [show normEC (sTrimSpace "") false = some ("", false) from rfl] at h
  dsimp only [] at h
  simp only [Option.some.injEq] at h
  subst h
  exact ⟨rfl, rfl⟩

/-- An ENTRYPOINT line never also starts with the CMD keyword. -/
theorem notCMDPrefix (z : String) : sStartsWith ("ENTRYPOINT " ++ z) "CMD " = false := by
  obtain ⟨l⟩ := z
  rfl

/-! ### Substring lemmas for the metadata emitter -/

theorem sdata_append (a b : String) : (a ++ b).data = a.data ++ b.data := by
  obtain ⟨la⟩ := a
  obtain ⟨lb⟩ := b
  rfl

theorem containsSub_of_prefix (sub l : List Char) (h : sub <+: l) :
    containsSub sub l = true := by
  cases l with
  | nil => simpa [containsSub] using List.isPrefixOf_iff_prefix.mpr h
  | cons c cs => simp [containsSub, List.isPrefixOf_iff_prefix.mpr h]

theorem containsSub_of_right (sub l2 : List Char) :
    ∀ l1, containsSub sub l2 = true → containsSub sub (l1 ++ l2) = true := by
  intro l1
  induction l1 with
  | nil => intro h; simpa using h
  | cons a as ih => intro h; simp [containsSub, ih h]

theorem containsSub_of_left (sub : List Char) :
    ∀ l1 l2, containsSub sub l1 = true → containsSub sub (l1 ++ l2) = true := by
  intro l1
  induction l1 with
  | nil =>
    intro l2 h
    have hp : sub <+: ([] : List Char) := List.isPrefixOf_iff_prefix.mp h
    exact containsSub_of_prefix sub l2 (hp.trans List.nil_prefix)
  | cons a as ih =>
    intro l2 h
    simp only [containsSub, Bool.or_eq_true] at h
    rcases h with h | h
    · exact containsSub_of_prefix sub _
        ((List.isPrefixOf_iff_prefix.mp h).trans (List.prefix_append (a :: as) l2))
    · simp [containsSub, ih l2 h]

theorem strConcat_contains (line : String) : ∀ (l : List String),
    (∃ x ∈ l, containsSub line.data x.data = true) →
    containsSub line.data (strConcat l).data = true := by
  intro l
  induction l with
  | nil => rintro ⟨x, hx, _⟩; simp at hx
  | cons a as ih =>
    rintro ⟨x, hx, hcont⟩
    show containsSub line.data (a ++ strConcat as).data = true
    rw [sdata_append]
    rcases List.mem_cons.mp hx with rfl | hx
    · exact containsSub_of_left _ _ _ hcont
    · exact containsSub_of_right _ _ _ (ih ⟨x, hx, hcont⟩)

/-- An env entry with at least one equals sign contributes its ENV line to
the env block of the metadata emitter. -/
theorem envSection_contains (env : List String) (entryStr k v : String)
    (rest : List String) (hmem : entryStr ∈ env)
    (hsplit : sSplit entryStr "=" = k :: v :: rest) :
    containsSub ("ENV " ++ k ++ " \"" ++ v ++ "\"\n").data (envSection env).data = true := by
  have hne : env.isEmpty = false := by
    cases env with
    | nil => simp at hmem
    | cons _ _ => rfl
  unfold envSection
  rw [hne]
  simp only [Bool.false_eq_true, if_false]
  rw [sdata_append]
  apply containsSub_of_left
  apply strConcat_contains
  refine ⟨envLineGo entryStr, List.mem_map_of_mem envLineGo hmem, ?_⟩
  unfold envLineGo
  rw [hsplit]
  exact containsSub_of_prefix _ _ (List.prefix_refl _)

/-! # Claim theorems -/

/-- C1 counterexample: on the single-entry history of the claim, the emitted
line list is not the one the claim states (there is no new-image comment
line, the CMD line carries a trailing newline, and the id in the end-of-image
comment is empty because it was cleared when it matched the frame id). -/
theorem c1_lines_counterexample :
    (dockerfileFromHistory ctx0 [e1]).map Dockerfile.Lines ≠
      some ["FROM scratch", "# new image", "CMD [\"sh\"]",
        "# end of image: img:1 (id: id1 tags: img:1)", ""] := by
  decide

/-- C1 (corrected): the single CMD entry tagged img:1 produces one frame
tagged img:1 with one exec-form CMD instruction whose command text is the
string CMD followed by the JSON array and a trailing newline, and the line
list is FROM scratch, the CMD line (with its embedded newline), the
end-of-image comment with an empty id, and a blank line; no new-image
comment is emitted because the single instruction position is last, which
overrides first. -/
theorem c1_single_cmd_amended (ctx : Ctx) :
    ∃ df, dockerfileFromHistory ctx [e1] = some df ∧
      df.Lines = ["FROM scratch", "CMD [\"sh\"]\n",
        "# end of image: img:1 (id:  tags: img:1)", ""] ∧
      df.ImageStack.map ImageInfo.FullName = ["img:1"] ∧
      df.AllInstructions.map (fun i => (i.Kind, i.IsExecForm, i.CommandAll)) =
        [("CMD", true, "CMD [\"sh\"]\n")] ∧
      df.ImageStack.map (fun f => f.Instructions.map InstructionInfo.CommandAll) =
        [["CMD [\"sh\"]\n"]] :=
  ⟨_, rfl, rfl, rfl, rfl, rfl⟩

/-- C1 witness: the amended statement instantiated at the trivial context. -/
theorem c1_single_cmd_witness :
    ∃ df, dockerfileFromHistory ctx0 [e1] = some df ∧
      df.Lines = ["FROM scratch", "CMD [\"sh\"]\n",
        "# end of image: img:1 (id:  tags: img:1)", ""] := by
  obtain ⟨df, h1, h2, _⟩ := c1_single_cmd_amended ctx0
  exact ⟨df, h1, h2⟩

/-- C2 counterexample: on a CMD instruction whose operand uses the daemon
pseudo-array serialization, the code does not perform the replacement the
claim requires for CMD, so the code normalizer and the claimed normalizer
disagree. -/
theorem c2_cmd_pseudoarray_counterexample :
    normEC "CMD &\x7b[\"a\"]\x7d" false ≠ normECClaimC2 "CMD &\x7b[\"a\"]\x7d" false := by
  decide

/-- C2 (corrected): the pseudo-array replacement is applied only to
ENTRYPOINT instructions; for CMD the operand is used as found, and both kinds
then either strip the bin-sh wrapper into shell form or are marked exec form
and run through fix_json_array.  The code normalizer equals this amended
specification on every input. -/
theorem c2_normalizer_amended : ∀ (ci0 : String) (ef0 : Bool),
    normEC ci0 ef0 = normECSpecA ci0 ef0 := by
  intro ci0 ef0
  unfold normEC normECSpecA
  by_cases hE : sStartsWith ci0 "ENTRYPOINT " = true
  · simp only [hE, if_true]
    by_cases hS :
        sStartsWith (sReplace (sReplace ci0 "&\x7b[" "[") "]\x7d" "]")
          entrypointShellFormPrefix = true
    · simp [hS, notCMDPrefix]
    · simp only [Bool.not_eq_true] at hS
      simp only [hS, Bool.false_eq_true, if_false]
      cases hF : fixJSONArrayGo
          (sTrimPrefix (sReplace (sReplace ci0 "&\x7b[" "[") "]\x7d" "]") "ENTRYPOINT ") with
      | none => simp [hF]
      | some d => simp [hF, notCMDPrefix]
  · simp only [Bool.not_eq_true] at hE
    simp only [hE, Bool.false_eq_true, if_false]

/-- C2 witness: the amended normalizer equality at one concrete CMD input. -/
theorem c2_normalizer_witness :
    normEC "CMD [\"x\"]" false = normECSpecA "CMD [\"x\"]" false :=
  c2_normalizer_amended "CMD [\"x\"]" false

/-- C3 counterexample: a frame closed by an entry whose id is the sentinel
missing marker has no instruction with the is-last flag, against the claim
that exactly the last instruction of every frame carries it. -/
theorem c3_missing_id_counterexample :
    (dockerfileFromHistory ctx0 [eMissing]).map
      (fun d => d.ImageStack.map
        (fun f => f.Instructions.map InstructionInfo.IsLastInstruction)) =
      some [[false]] := by
  decide

/-- C3 (corrected): in every frame of the output image stack, at most the
last instruction has the is-last flag (all earlier ones have it unset), and
any instruction with the flag set has an empty intermediate image id; the
flag can also be absent from the last instruction, namely when the closing
entry id is the missing sentinel. -/
theorem c3_frame_flag_amended (ctx : Ctx) (hist : List HistoryEntry) (df : Dockerfile)
    (hdf : dockerfileFromHistory ctx hist = some df) :
    ∀ f ∈ df.ImageStack,
      (∀ i ∈ f.Instructions.dropLast, i.IsLastInstruction = false) ∧
      (∀ i ∈ f.Instructions, i.IsLastInstruction = true → i.IntermediateImageID = "") := by
  unfold dockerfileFromHistory at hdf
  cases hr : reduceAux ctx hist.reverse true "" none emptyAcc with
  | none => rw [hr] at hdf; simp at hdf
  | some acc =>
    rw [hr] at hdf
    simp only [Option.some.injEq] at hdf
    subst hdf
    intro f hf
    have hstack := reduceAux_stack_ok ctx hist.reverse true "" none emptyAcc acc hr
      (by intro g hg; simp [emptyAcc] at hg)
      (by intro c hc; simp at hc)
    have hf2 : f ∈ markLastTop acc.stack := hf
    exact markLastTop_ok
      (fun g => (∀ i ∈ g.Instructions.dropLast, i.IsLastInstruction = false) ∧
        (∀ i ∈ g.Instructions, i.IsLastInstruction = true → i.IntermediateImageID = ""))
      (fun g g' hgg hPg =>
        ⟨fun i hi => hPg.1 i (by rw [hgg]; exact hi),
         fun i hi => hPg.2 i (by rw [hgg]; exact hi)⟩)
      acc.stack hstack f hf2

/-- C3 witness: the amended invariant instantiated on a one-entry tagged
history. -/
theorem c3_frame_flag_witness :
    ∃ df, dockerfileFromHistory ctx0 [eW3] = some df ∧
      ∀ f ∈ df.ImageStack, ∀ i ∈ f.Instructions,
        i.IsLastInstruction = true → i.IntermediateImageID = "" :=
  ⟨_, rfl, fun f hf => (c3_frame_flag_amended ctx0 [eW3] _ rfl f hf).2⟩

/-- C4 (code_bug exhibit): on a history entry whose created_by line carries a
negative build-arg count, DockerfileFromHistory does not return normally: the
Go code slices withArgsArray with a negative lower bound and panics (modelled
as none), although the history query succeeded. -/
theorem c4_negative_args_crash : dockerfileFromHistory ctx0 [eNegArgs] = none := by
  decide

/-- C5 (code_bug exhibit): fix_json_array is not idempotent on a valid JSON
array of shell tokens: the first application appends the encoder newline, and
the second strips the first and last characters of the result, folding the
closing bracket into the token. -/
theorem c5_fix_json_array_not_idempotent :
    fixJSONArrayGo "[\"sh\"]" = some "[\"sh\"]\n" ∧
    fixJSONArrayGo "[\"sh\"]\n" = some "[\"sh]\"]\n" := by
  decide

/-- C6 counterexample: fix_json_array does not return normally on every
input; on the empty string it panics indexing data[0], and on the
single-character opening-bracket string it panics slicing data[1:0]. -/
theorem c6_empty_input_counterexample :
    fixJSONArrayGo "" = none ∧ fixJSONArrayGo "[" = none := by
  decide

/-- C6 (corrected): for every input other than the empty string and the
one-character opening-bracket string, fix_json_array returns normally. -/
theorem c6_total_amended : ∀ s : String, s ≠ "" → s ≠ "[" →
    (fixJSONArrayGo s).isSome = true := by
  intro s h1 h2
  obtain ⟨l⟩ := s
  cases l with
  | nil => exact absurd rfl h1
  | cons c rest =>
    unfold fixJSONArrayGo
    dsimp only []
    by_cases hc : c = '['
    · subst hc
      cases rest with
      | nil => exact absurd rfl h2
      | cons d ds =>
        cases hsp : shlexSplit ⟨(d :: ds).dropLast⟩ <;> simp [hsp]
    · rw [if_neg hc]
      cases hsp : shlexSplit ⟨c :: rest⟩ <;> simp [hsp]

/-- C6 witness: the amended totality at a concrete bracketed input. -/
theorem c6_total_witness :
    ("[x]" ≠ "" ∧ "[x]" ≠ "[") ∧ (fixJSONArrayGo "[x]").isSome = true :=
  ⟨⟨by decide, by decide⟩, c6_total_amended "[x]" (by decide) (by decide)⟩

/-- C7 (code_bug exhibit): on a two-entry history both produced instructions
have layer_index zero; the reducer never assigns the field, so it cannot
equal the position in the input sequence, nor minus one for empty layers as
the field documentation in the source states. -/
theorem c7_layer_index_never_assigned :
    (dockerfileFromHistory ctx0 [eTagged, eUntagged]).map
      (fun d => d.AllInstructions.map InstructionInfo.LayerIndex) = some [0, 0] := by
  decide

/-- C8 (code_bug exhibit): a HEALTHCHECK history entry keeps its raw daemon
serialization as command_all: the HEALTHCHECK branch of the reducer is an
empty TODO block, and the deserialisation routine in the source is never
called (and parses a hard-coded string rather than its argument), so no
interval, timeout, start-period or retries flags are reconstructed. -/
theorem c8_healthcheck_not_reconstructed :
    (dockerfileFromHistory ctx0 [eHealth]).map
      (fun d => d.AllInstructions.map (fun i => (i.Kind, i.CommandAll))) =
      some [("HEALTHCHECK",
        "HEALTHCHECK &\x7b[\"CMD\" \"/healthcheck\" \"8080\"] \"5s\" \"10s\" \"2s\" \x27\\x03\x27\x7d")] := by
  decide

/-- C9 counterexample: for the env entry A=B=C the emitted Dockerfile
contains the line ENV A with the value B only, not the entire value B=C
after the first equals sign: the source splits on every equals sign and uses
field one, dropping the rest. -/
theorem c9_env_second_field_counterexample :
    containsStr (generateFromInfo ctx0 "l" "v" [] "" ["A=B=C"] [] "" [] [] [] false false)
        "ENV A \"B\"\n" = true ∧
    containsStr (generateFromInfo ctx0 "l" "v" [] "" ["A=B=C"] [] "" [] [] [] false false)
        "ENV A \"B=C\"" = false := by
  decide

/-- C9 (corrected): for every env entry with at least one equals sign, the
emitted Dockerfile contains the line ENV K, quoted V, where K is the text
before the first equals sign and V the text between the first and the second
equals sign (the first split field after the key, not the entire remainder);
and a blank line follows the env group (the env section ends with an extra
newline). -/
theorem c9_env_line_amended (ctx : Ctx) (labelName ver : String) (volumes : List String)
    (workingDir : String) (env : List String) (labels : List (String × String))
    (user : String) (exposedPorts : List String) (entrypoint cmd : List String)
    (hasData tarData : Bool) (entryStr k v : String) (rest : List String)
    (hmem : entryStr ∈ env) (hsplit : sSplit entryStr "=" = k :: v :: rest) :
    containsStr (generateFromInfo ctx labelName ver volumes workingDir env labels
        user exposedPorts entrypoint cmd hasData tarData)
      ("ENV " ++ k ++ " \"" ++ v ++ "\"\n") = true ∧
    ∃ s, envSection env = s ++ "\n" := by
  constructor
  · unfold containsStr generateFromInfo
    simp only [sdata_append]
    apply containsSub_of_left
    apply containsSub_of_left
    apply containsSub_of_left
    apply containsSub_of_left
    apply containsSub_of_left
    apply containsSub_of_left
    apply containsSub_of_left
    apply containsSub_of_right
    exact envSection_contains env entryStr k v rest hmem hsplit
  · refine ⟨strConcat (env.map envLineGo), ?_⟩
    have hne : env.isEmpty = false := by
      cases env with
      | nil => simp at hmem
      | cons _ _ => rfl
    simp [envSection, hne]

/-- C9 witness: the amended env-line property at the concrete entry A=B=C. -/
theorem c9_env_line_witness :
    ("A=B=C" ∈ ["A=B=C"] ∧ sSplit "A=B=C" "=" = ["A", "B", "C"]) ∧
    containsStr (generateFromInfo ctx0 "l" "v" [] "" ["A=B=C"] [] "" [] [] [] false false)
      ("ENV " ++ "A" ++ " \"" ++ "B" ++ "\"\n") = true :=
  ⟨⟨by decide, by decide⟩,
    (c9_env_line_amended ctx0 "l" "v" [] "" ["A=B=C"] [] "" [] [] [] false false
      "A=B=C" "A" "B" ["C"] (by decide) (by decide)).1⟩

/-- C10 (confirmed): every history entry whose created_by line is empty
yields an instruction of kind NONE whose command_all is the placeholder
text, and that placeholder appears verbatim among the generated Dockerfile
lines. -/
theorem c10_empty_line_placeholder (ctx : Ctx) (hist : List HistoryEntry)
    (df : Dockerfile) (e : HistoryEntry)
    (hdf : dockerfileFromHistory ctx hist = some df)
    (he : e ∈ hist) (hcb : e.CreatedBy = "") :
    (∃ inst ∈ df.AllInstructions, inst.Kind = "NONE" ∧
      inst.CommandAll = "#no instruction info") ∧
    "#no instruction info" ∈ df.Lines := by
  unfold dockerfileFromHistory at hdf
  cases hr : reduceAux ctx hist.reverse true "" none emptyAcc with
  | none => rw [hr] at hdf; simp at hdf
  | some acc =>
    rw [hr] at hdf
    simp only [Option.some.injEq] at hdf
    subst hdf
    obtain ⟨r, hrp, inst, hmem, hkind, hca⟩ :=
      reduceAux_view ctx hist.reverse true "" none emptyAcc acc hr e
        (List.mem_reverse.mpr he)
    obtain ⟨hk, hc⟩ := processEntry_emptyLine ctx e r hrp hcb
    refine ⟨⟨inst, hmem, hkind.trans hk, hca.trans hc⟩, ?_⟩
    have hl : inst.CommandAll ∈ emitLines acc.fat := mem_emitLines acc.fat inst hmem
    rw [hca.trans hc] at hl
    exact List.mem_cons_of_mem _ hl

/-- C10 witness: the placeholder line on a concrete one-entry history with an
empty created_by. -/
theorem c10_empty_line_witness :
    ∃ df, dockerfileFromHistory ctx0 [eEmptyLine] = some df ∧
      "#no instruction info" ∈ df.Lines :=
  ⟨_, rfl,
    (c10_empty_line_placeholder ctx0 [eEmptyLine] _ eEmptyLine rfl (by simp) rfl).2⟩

end DSlim
